import Mathlib

/-!
Verification of the `PatchImageOp` IR-rewriting pass
(`src/patch/llpcPatchImageOp.cpp`).

The pass scans the call instructions of every shader entry function,
decodes a packed metadata constant carried as the last argument of each
recognized image call, and applies two hardware-conditioned rewrite rules:

* a buffer-size-query legalization (`OpKind = query-non-lod`,
  `Dim = buffer`): on hardware with major version `<= 8` the call is
  replaced by a call to a `.gfx8`/`.gfx6`-suffixed callee with the same
  operands, and the original call is scheduled for deferred erasure;
* a texel-offset erratum workaround (`Dim = buffer`, `OpKind` in a fixed
  fetch/read/write/atomic set): on major version 9, a constant-zero
  operand at index 3 is replaced in place by a dynamically computed zero
  derived from the program counter.

The embedding below models the mutable LLVM IR as explicit data: values
are a small expression syntax, call instructions carry an identity, an
optional callee name, a result-type tag and an argument list, and a
function body is a list of instructions.  The scan is a fold over the
instruction list; `replaceAllUsesWith` becomes an explicit substitution
of one call identity by another, and the deferred-erasure set becomes an
explicit pending list drained after all functions have been scanned.
Contract violations (the `LLPC_ASSERT`/`cast` on the metadata operand,
and the unguarded access to argument operand 3) surface as `Except`
errors.
-/

set_option maxHeartbeats 1000000

namespace Llpc

/-- Modelled from the spec: the enumerated image-operation kinds named by
the source (`ImageOpQueryNonLod`, `ImageOpFetch`, ..., `ImageOpAtomicXor`)
are declared in a vendor header that is not part of this unit; the spec
lists the kinds relevant to the pass and notes that further kinds exist
("and others not handled here", captured by `ImageOpOther`). -/
inductive ImageOpKind where
  | ImageOpSample
  | ImageOpFetch
  | ImageOpGather
  | ImageOpQueryNonLod
  | ImageOpQueryLod
  | ImageOpRead
  | ImageOpWrite
  | ImageOpAtomicExchange
  | ImageOpAtomicCompareExchange
  | ImageOpAtomicIIncrement
  | ImageOpAtomicIDecrement
  | ImageOpAtomicIAdd
  | ImageOpAtomicISub
  | ImageOpAtomicSMin
  | ImageOpAtomicUMin
  | ImageOpAtomicSMax
  | ImageOpAtomicUMax
  | ImageOpAtomicAnd
  | ImageOpAtomicOr
  | ImageOpAtomicXor
  | ImageOpOther (n : Nat)
deriving DecidableEq

/-- Modelled from the spec: the image-dimensionality enumeration with its
distinguished buffer value (`DimBuffer` in the source); declared in a
vendor header that is not part of this unit. -/
inductive ImageDim where
  | Dim1D
  | Dim2D
  | Dim3D
  | DimCube
  | DimRect
  | DimBuffer
  | DimSubpassData
  | DimOther (n : Nat)
deriving DecidableEq

/-- The decoded per-call metadata.  The source type `ShaderImageCallMetadata`
is a packed bitfield union; this pass reads only its `OpKind` and `Dim`
fields, so only those are modelled. -/
structure ShaderImageCallMetadata where
  OpKind : ImageOpKind
  Dim : ImageDim
deriving DecidableEq

/-- Modelled from the spec: the numeric enumerator assignment for
`ImageOpKind`.  The exact values are a cross-stage contract fixed in a
header outside this unit; the mapping here follows the declaration order
of the enumerators, with all further values mapped to `ImageOpOther`. -/
def opKindOfNat (n : Nat) : ImageOpKind :=
  match n with
  | 0 => ImageOpKind.ImageOpSample
  | 1 => ImageOpKind.ImageOpFetch
  | 2 => ImageOpKind.ImageOpGather
  | 3 => ImageOpKind.ImageOpQueryNonLod
  | 4 => ImageOpKind.ImageOpQueryLod
  | 5 => ImageOpKind.ImageOpRead
  | 6 => ImageOpKind.ImageOpWrite
  | 7 => ImageOpKind.ImageOpAtomicExchange
  | 8 => ImageOpKind.ImageOpAtomicCompareExchange
  | 9 => ImageOpKind.ImageOpAtomicIIncrement
  | 10 => ImageOpKind.ImageOpAtomicIDecrement
  | 11 => ImageOpKind.ImageOpAtomicIAdd
  | 12 => ImageOpKind.ImageOpAtomicISub
  | 13 => ImageOpKind.ImageOpAtomicSMin
  | 14 => ImageOpKind.ImageOpAtomicUMin
  | 15 => ImageOpKind.ImageOpAtomicSMax
  | 16 => ImageOpKind.ImageOpAtomicUMax
  | 17 => ImageOpKind.ImageOpAtomicAnd
  | 18 => ImageOpKind.ImageOpAtomicOr
  | 19 => ImageOpKind.ImageOpAtomicXor
  | k => ImageOpKind.ImageOpOther k

/-- Modelled from the spec: the numeric enumerator assignment for
`ImageDim`, following the SPIR-V dimension order with `DimBuffer` at 5;
the exact values are fixed in a header outside this unit. -/
def dimOfNat (n : Nat) : ImageDim :=
  match n with
  | 0 => ImageDim.Dim1D
  | 1 => ImageDim.Dim2D
  | 2 => ImageDim.Dim3D
  | 3 => ImageDim.DimCube
  | 4 => ImageDim.DimRect
  | 5 => ImageDim.DimBuffer
  | 6 => ImageDim.DimSubpassData
  | k => ImageDim.DimOther k

/-- Modelled from the spec: the pure bit-unpacking of the packed metadata
constant (`imageCallMeta.U32All = ...` in the source).  The spec fixes
only that `OpKind` and `Dim` are bit fields of the constant; the widths
used here (6 bits for the operation kind, 3 for the dimension) follow the
enumeration sizes.  No handled claim depends on the concrete positions. -/
def unpackImageCallMeta (u : Nat) : ShaderImageCallMetadata :=
  { OpKind := opKindOfNat (u % 64), Dim := dimOfNat (u / 64 % 8) }

/-- Modelled from the spec: the fixed recognized callee-name marker
(`LlpcName::ImageCallPrefix` in the source, declared outside this unit);
any callee whose name begins with it is treated as an image call. -/
def imageCallTag : String := "llpc.image."

/-- `StringRef::startswith`: does `s` begin with `p`?  Stated over the
character lists underlying the strings. -/
def strBeginsWith (s p : String) : Bool :=
  p.data.isPrefixOf s.data

/-- Equality of `Except` results is decidable componentwise. -/
instance instDecEqExcept {ε α : Type} [DecidableEq ε] [DecidableEq α] :
    DecidableEq (Except ε α) := fun a b =>
  match a, b with
  | Except.error x, Except.error y =>
      if h : x = y then Decidable.isTrue (by rw [h])
      else Decidable.isFalse (fun hc => h (Except.error.inj hc))
  | Except.ok x, Except.ok y =>
      if h : x = y then Decidable.isTrue (by rw [h])
      else Decidable.isFalse (fun hc => h (Except.ok.inj hc))
  | Except.error _, Except.ok _ => Decidable.isFalse (fun hc => Except.noConfusion hc)
  | Except.ok _, Except.error _ => Decidable.isFalse (fun hc => Except.noConfusion hc)

/-- An SSA value as seen by this pass: compile-time integer constants,
opaque function-argument-like values, results of call instructions
(referenced by the call identity), and the nodes the pass itself emits
for the erratum workaround (`llvm.amdgcn.s.getpc`, a bitcast to a pair
of 32-bit halves, an element extraction and a logical right shift). -/
inductive Value where
  | constInt (v : Nat)
  | arg (n : Nat)
  | callResult (id : Nat)
  | getPC
  | bitcastV2i32 (a : Value)
  | extractElem (a : Value) (idx : Nat)
  | lshr (a : Value) (amt : Nat)
deriving DecidableEq

/-- Mirrors `isa<ConstantInt>` in the source. -/
def Value.isConstInt : Value → Bool
  | Value.constInt _ => true
  | _ => false

/-- A call instruction: identity, optional statically known callee
(`getCalledFunction` returns null for indirect calls), a result-type tag
(`getType`), and the ordered argument operand list. -/
structure CallInst where
  id : Nat
  callee : Option String
  retTy : Nat
  args : List Value
deriving DecidableEq

/-- An instruction of a function body: a call, or any other instruction
(identity plus operand list); the visitor only dispatches on calls. -/
inductive Instr where
  | call (c : CallInst)
  | simple (id : Nat) (ops : List Value)
deriving DecidableEq

/-- The identity of an instruction. -/
def Instr.instrId : Instr → Nat
  | Instr.call c => c.id
  | Instr.simple i _ => i

/-- A shader entry function body. -/
structure Function where
  instrs : List Instr
deriving DecidableEq

/-- The module, as this pass sees it: the bodies of the entry points of
the shader stages present in the pipeline, in stage order (stages with no
entry point are simply absent). -/
structure Module where
  funcs : List Function
deriving DecidableEq

/-- The target hardware generation (`GfxIpVersion`), read-only input. -/
structure GfxIpVersion where
  major : Nat
  minor : Nat
  stepping : Nat
deriving DecidableEq

/-- The result of visiting one call: leave it alone, insert a replacement
call before it (redirecting all uses and scheduling the original for
erasure), or overwrite argument operand 3 in place. -/
inductive VisitAction where
  | noop
  | replaceCall (newCall : CallInst)
  | setOperand3 (v : Value)
deriving DecidableEq

/-- The fatal contract violations of the pass: the metadata operand is
absent or non-constant (the `LLPC_ASSERT`/`cast<ConstantInt>` on the last
argument), or the unguarded `getArgOperand(3)` is out of bounds. -/
inductive PassError where
  | metaContract (callId : Nat)
  | oobOperand (callId : Nat)
deriving DecidableEq

/-- Decoding of the metadata operand (source lines 112-115): assert at
least two argument operands, read the last argument, require it to be a
compile-time integer constant, and unpack it. -/
def decodeImageCallMeta (c : CallInst) : Option ShaderImageCallMetadata :=
  if 2 ≤ c.args.length then
    match c.args[c.args.length - 1]? with
    | some (Value.constInt u) => some (unpackImageCallMeta u)
    | _ => none
  else none

/-- The `OpKind` disjunction of the offset-erratum rule (source lines
146-161): fetch, read, write and the thirteen listed atomics. -/
def isOffsetErratumOpKind (k : ImageOpKind) : Bool :=
  decide (k = ImageOpKind.ImageOpFetch) ||
  decide (k = ImageOpKind.ImageOpRead) ||
  decide (k = ImageOpKind.ImageOpWrite) ||
  decide (k = ImageOpKind.ImageOpAtomicExchange) ||
  decide (k = ImageOpKind.ImageOpAtomicCompareExchange) ||
  decide (k = ImageOpKind.ImageOpAtomicIIncrement) ||
  decide (k = ImageOpKind.ImageOpAtomicIDecrement) ||
  decide (k = ImageOpKind.ImageOpAtomicIAdd) ||
  decide (k = ImageOpKind.ImageOpAtomicISub) ||
  decide (k = ImageOpKind.ImageOpAtomicSMin) ||
  decide (k = ImageOpKind.ImageOpAtomicUMin) ||
  decide (k = ImageOpKind.ImageOpAtomicSMax) ||
  decide (k = ImageOpKind.ImageOpAtomicUMax) ||
  decide (k = ImageOpKind.ImageOpAtomicAnd) ||
  decide (k = ImageOpKind.ImageOpAtomicOr) ||
  decide (k = ImageOpKind.ImageOpAtomicXor)

/-- The `.gfx8`/`.gfx6` suffix chosen at source line 132:
`(gfxIp.major == 8) ? ".gfx8" : ".gfx6"`. -/
def gfxSuffix (gfxIp : GfxIpVersion) : String :=
  if gfxIp.major = 8 then ".gfx8" else ".gfx6"

/-- The value the erratum workaround stores into operand 3 (source lines
176-193): read the program counter, reinterpret it as two 32-bit halves,
take the high half, shift it right by 24. -/
def synthesizedTexelOffset : Value :=
  Value.lshr (Value.extractElem (Value.bitcastV2i32 Value.getPC) 1) 24

/-- The buffer-size-query branch (source lines 120-143): on major version
at most 8, emit a call to the suffixed callee with the same result type
and all original argument operands, inserted before the original call;
otherwise do nothing. -/
def sizeQueryAction (gfxIp : GfxIpVersion) (freshId : Nat) (name : String)
    (c : CallInst) : Except PassError VisitAction :=
  if gfxIp.major ≤ 8 then
    Except.ok (VisitAction.replaceCall
      { id := freshId
        callee := some (name ++ gfxSuffix gfxIp)
        retTy := c.retTy
        args := c.args })
  else
    Except.ok VisitAction.noop

/-- The offset-erratum branch (source lines 162-197): only on major
version 9, read argument operand 3; if it is a compile-time integer
constant equal to zero, overwrite it with the synthesized dynamic zero;
otherwise do nothing.  The operand access is guarded only by the earlier
two-operand assertion, so a matching call with fewer than four argument
operands is a contract violation. -/
def offsetErratumAction (gfxIp : GfxIpVersion) (c : CallInst) :
    Except PassError VisitAction :=
  if gfxIp.major = 9 then
    match c.args[3]? with
    | none => Except.error (PassError.oobOperand c.id)
    | some (Value.constInt texelOffset) =>
      if texelOffset = 0 then
        Except.ok (VisitAction.setOperand3 synthesizedTexelOffset)
      else
        Except.ok VisitAction.noop
    | some _ => Except.ok VisitAction.noop
  else
    Except.ok VisitAction.noop

/-- `PatchImageOp::visitCallInst` (source lines 100-199): return
immediately for indirect calls; ignore callees whose name does not start
with the image-call marker; otherwise decode the metadata from the last
argument and dispatch to the matching rewrite rule. -/
def visitCallInst (gfxIp : GfxIpVersion) (freshId : Nat) (callInst : CallInst) :
    Except PassError VisitAction :=
  match callInst.callee with
  | none => Except.ok VisitAction.noop
  | some mangledName =>
    if strBeginsWith mangledName imageCallTag then
      match decodeImageCallMeta callInst with
      | none => Except.error (PassError.metaContract callInst.id)
      | some imageCallMeta =>
        if imageCallMeta.OpKind = ImageOpKind.ImageOpQueryNonLod ∧
           imageCallMeta.Dim = ImageDim.DimBuffer then
          sizeQueryAction gfxIp freshId mangledName callInst
        else if imageCallMeta.Dim = ImageDim.DimBuffer ∧
                isOffsetErratumOpKind imageCallMeta.OpKind = true then
          offsetErratumAction gfxIp callInst
        else
          Except.ok VisitAction.noop
    else
      Except.ok VisitAction.noop

/-- Substitution of one call identity by another inside a value: the
explicit form of redirecting a use during `replaceAllUsesWith`. -/
def substValue (oldId newId : Nat) : Value → Value
  | Value.constInt v => Value.constInt v
  | Value.arg n => Value.arg n
  | Value.callResult i =>
      Value.callResult (if i = oldId then newId else i)
  | Value.getPC => Value.getPC
  | Value.bitcastV2i32 a => Value.bitcastV2i32 (substValue oldId newId a)
  | Value.extractElem a i => Value.extractElem (substValue oldId newId a) i
  | Value.lshr a k => Value.lshr (substValue oldId newId a) k

/-- Substitution applied to the argument operands of a call. -/
def substCallArgs (oldId newId : Nat) (c : CallInst) : CallInst :=
  { c with args := c.args.map (substValue oldId newId) }

/-- Substitution applied to one instruction. -/
def substInstr (oldId newId : Nat) : Instr → Instr
  | Instr.call c => Instr.call (substCallArgs oldId newId c)
  | Instr.simple i ops => Instr.simple i (ops.map (substValue oldId newId))

/-- `callInst.setArgOperand(3, v)`. -/
def setOp3 (v : Value) (c : CallInst) : CallInst :=
  { c with args := c.args.set 3 v }

/-- Insertion into the pending-erasure set (`m_imageCalls.insert`);
inserting an identity already present is a no-op. -/
def insertPending (s : List Nat) (x : Nat) : List Nat :=
  if x ∈ s then s else s ++ [x]

/-- The deferred-erasure drain (source lines 88-93): every instruction
whose identity was scheduled is removed. -/
def drainErasures (pending : List Nat) (l : List Instr) : List Instr :=
  l.filter (fun i => decide (i.instrId ∉ pending))

/-- State threaded through the scan of one function: the already-visited
instructions (with all mutations applied), the pending-erasure set and
the counter supplying identities for emitted calls. -/
structure ScanState where
  done : List Instr
  pending : List Nat
  fresh : Nat
deriving DecidableEq

/-- One instruction sweep of the visitor over a function body, fuelled by
the number of instructions still to visit (substitution keeps the length
of the remainder unchanged, so the fuel is exact; the fuel-exhausted case
is unreachable from `scanInstrs`).  A `replaceCall` action inserts the
emitted call immediately before the original, substitutes the original
call identity by the new one throughout the function (the already-visited
instructions, both calls, and the remainder), and schedules the original
for erasure; newly inserted calls are not themselves visited, matching
the iterator position of the C++ visitor. -/
def scanFuel (gfxIp : GfxIpVersion) :
    Nat → ScanState → List Instr → Except PassError ScanState
  | _, st, [] => Except.ok st
  | 0, st, _ :: _ => Except.ok st
  | fuel + 1, st, instr :: rest =>
    match instr with
    | Instr.simple i ops =>
        scanFuel gfxIp fuel
          { st with done := st.done ++ [Instr.simple i ops] } rest
    | Instr.call c =>
      match visitCallInst gfxIp st.fresh c with
      | Except.error e => Except.error e
      | Except.ok VisitAction.noop =>
          scanFuel gfxIp fuel
            { st with done := st.done ++ [Instr.call c] } rest
      | Except.ok (VisitAction.setOperand3 v) =>
          scanFuel gfxIp fuel
            { st with done := st.done ++ [Instr.call (setOp3 v c)] } rest
      | Except.ok (VisitAction.replaceCall newCall) =>
          scanFuel gfxIp fuel
            { done := (st.done ++ [Instr.call newCall, Instr.call c]).map
                (substInstr c.id newCall.id)
              pending := insertPending st.pending c.id
              fresh := st.fresh + 1 }
            (rest.map (substInstr c.id newCall.id))

/-- The visitor sweep over a full instruction list. -/
def scanInstrs (gfxIp : GfxIpVersion) (st : ScanState) (todo : List Instr) :
    Except PassError ScanState :=
  scanFuel gfxIp todo.length st todo

/-- `visit(*m_pEntryPoint)` for one stage: sweep the body, threading the
module-wide pending set and fresh-identity counter. -/
def scanFunction (gfxIp : GfxIpVersion) (pending : List Nat) (fresh : Nat)
    (f : Function) : Except PassError (Function × List Nat × Nat) :=
  match scanInstrs gfxIp { done := [], pending := pending, fresh := fresh } f.instrs with
  | Except.error e => Except.error e
  | Except.ok st => Except.ok (⟨st.done⟩, st.pending, st.fresh)

/-- The stage loop of `runOnModule` (source lines 78-86): scan each entry
point present, in order. -/
def scanFuncs (gfxIp : GfxIpVersion) :
    List Nat → Nat → List Function →
    Except PassError (List Function × List Nat × Nat)
  | pending, fresh, [] => Except.ok ([], pending, fresh)
  | pending, fresh, f :: fs =>
    match scanFunction gfxIp pending fresh f with
    | Except.error e => Except.error e
    | Except.ok (f2, pending2, fresh2) =>
      match scanFuncs gfxIp pending2 fresh2 fs with
      | Except.error e => Except.error e
      | Except.ok (fs2, pending3, fresh3) =>
          Except.ok (f2 :: fs2, pending3, fresh3)

/-- `PatchImageOp::runOnModule` (source lines 69-96): scan all stages,
then drain the pending-erasure set exactly once.  `fresh0` supplies the
identities of emitted calls; callers pick it above every identity already
present in the module. -/
def runOnModule (gfxIp : GfxIpVersion) (fresh0 : Nat) (m : Module) :
    Except PassError Module :=
  match scanFuncs gfxIp [] fresh0 m.funcs with
  | Except.error e => Except.error e
  | Except.ok (fs, pending, _) =>
      Except.ok ⟨fs.map (fun f => ⟨drainErasures pending f.instrs⟩)⟩

/-- A runtime environment for evaluating values: the program counter and
the meanings of the opaque argument and call-result values.  On the
target architecture the most significant 8 bits of the 64-bit program
counter are always zero (source comment, lines 185-187), i.e.
`pc < 2 ^ 56`. -/
structure Env where
  pc : Nat
  argVal : Nat → Nat
  callVal : Nat → Nat

/-- Runtime evaluation of a value: 64-bit program counter, little-endian
split into two 32-bit halves, 32-bit logical right shift. -/
def evalValue (e : Env) : Value → Nat
  | Value.constInt v => v
  | Value.arg n => e.argVal n
  | Value.callResult i => e.callVal i
  | Value.getPC => e.pc % 2 ^ 64
  | Value.bitcastV2i32 a => evalValue e a
  | Value.extractElem a i => evalValue e a / 2 ^ (32 * i) % 2 ^ 32
  | Value.lshr a k => evalValue e a % 2 ^ 32 / 2 ^ k

/-- Whether a value uses the result of the call with identity `n`. -/
def valueUses (n : Nat) : Value → Bool
  | Value.constInt _ => false
  | Value.arg _ => false
  | Value.callResult i => decide (i = n)
  | Value.getPC => false
  | Value.bitcastV2i32 a => valueUses n a
  | Value.extractElem a _ => valueUses n a
  | Value.lshr a _ => valueUses n a

/-- Whether an instruction uses the result of call `n` in its operands. -/
def instrUses (n : Nat) : Instr → Bool
  | Instr.call c => c.args.any (valueUses n)
  | Instr.simple _ ops => ops.any (valueUses n)

/-- Whether any instruction of a function uses the result of call `n`. -/
def funcUses (n : Nat) (f : Function) : Bool :=
  f.instrs.any (instrUses n)

/-- The selector of the buffer-size-query rule, as a predicate on a call:
recognized callee name, decodable metadata, `OpKind = query-non-lod` and
`Dim = buffer`. -/
def isSizeQueryCandidate (c : CallInst) : Bool :=
  match c.callee with
  | none => false
  | some name =>
    strBeginsWith name imageCallTag &&
      match decodeImageCallMeta c with
      | some md =>
          decide (md.OpKind = ImageOpKind.ImageOpQueryNonLod) &&
          decide (md.Dim = ImageDim.DimBuffer)
      | none => false

/-- The selector of the offset-erratum rule, as a predicate on a call. -/
def isOffsetErratumCandidate (c : CallInst) : Bool :=
  match c.callee with
  | none => false
  | some name =>
    strBeginsWith name imageCallTag &&
      match decodeImageCallMeta c with
      | some md =>
          decide (md.Dim = ImageDim.DimBuffer) &&
          isOffsetErratumOpKind md.OpKind
      | none => false

/-- The statically known callee name of a call (empty for indirect calls;
only used where the callee is known to exist). -/
def calleeStr (c : CallInst) : String :=
  c.callee.getD ""

/-- Modelled from the spec: the rule-order-swapped variant of the visitor,
written to the spec sentence "rules are order-independent because the two
handled cases are mutually exclusive"; it tests the offset-erratum
selector before the size-query selector and is proved to agree with
`visitCallInst` everywhere. -/
def visitCallInstSwapped (gfxIp : GfxIpVersion) (freshId : Nat)
    (callInst : CallInst) : Except PassError VisitAction :=
  match callInst.callee with
  | none => Except.ok VisitAction.noop
  | some mangledName =>
    if strBeginsWith mangledName imageCallTag then
      match decodeImageCallMeta callInst with
      | none => Except.error (PassError.metaContract callInst.id)
      | some imageCallMeta =>
        if imageCallMeta.Dim = ImageDim.DimBuffer ∧
           isOffsetErratumOpKind imageCallMeta.OpKind = true then
          offsetErratumAction gfxIp callInst
        else if imageCallMeta.OpKind = ImageOpKind.ImageOpQueryNonLod ∧
                imageCallMeta.Dim = ImageDim.DimBuffer then
          sizeQueryAction gfxIp freshId mangledName callInst
        else
          Except.ok VisitAction.noop
    else
      Except.ok VisitAction.noop

/-- Hardware generation GFX6. -/
def gfx6ip : GfxIpVersion := { major := 6, minor := 0, stepping := 0 }

/-- Hardware generation GFX7. -/
def gfx7ip : GfxIpVersion := { major := 7, minor := 0, stepping := 0 }

/-- Hardware generation GFX8. -/
def gfx8ip : GfxIpVersion := { major := 8, minor := 0, stepping := 0 }

/-- Hardware generation GFX9. -/
def gfx9ip : GfxIpVersion := { major := 9, minor := 0, stepping := 0 }

/-- A concrete buffer-size-query call: metadata constant 323 decodes to
`OpKind = query-non-lod`, `Dim = buffer`. -/
def querySizeCall : CallInst :=
  { id := 0
    callee := some ("llpc.image.querysize")
    retTy := 0
    args := [Value.arg 0, Value.constInt 323] }

/-- The image of `querySizeCall` under one run of the pass on GFX6. -/
def querySizeGfx6Call : CallInst :=
  { id := 1
    callee := some ("llpc.image.querysize.gfx6")
    retTy := 0
    args := [Value.arg 0, Value.constInt 323] }

/-- The image of `querySizeGfx6Call` under a second run on GFX6. -/
def querySizeGfx66Call : CallInst :=
  { id := 2
    callee := some ("llpc.image.querysize.gfx6.gfx6")
    retTy := 0
    args := [Value.arg 0, Value.constInt 323] }

/-- A one-function module holding only `querySizeCall`. -/
def moduleBefore : Module := ⟨[⟨[Instr.call querySizeCall]⟩]⟩

/-- `moduleBefore` after one run of the pass on GFX6. -/
def moduleOnce : Module := ⟨[⟨[Instr.call querySizeGfx6Call]⟩]⟩

/-- `moduleOnce` after a further run of the pass on GFX6. -/
def moduleTwice : Module := ⟨[⟨[Instr.call querySizeGfx66Call]⟩]⟩

/-- A concrete buffer-fetch call with constant-zero texel offset at
operand 3: metadata constant 321 decodes to `OpKind = fetch`,
`Dim = buffer`. -/
def fetchZeroCall : CallInst :=
  { id := 0
    callee := some ("llpc.image.fetch")
    retTy := 0
    args := [Value.arg 0, Value.arg 1, Value.arg 2, Value.constInt 0,
             Value.constInt 321] }

/-- A concrete buffer-fetch call with only two argument operands: it
satisfies the stated two-operand metadata contract, yet the erratum rule
has no operand index 3 to read. -/
def fetchShortCall : CallInst :=
  { id := 0
    callee := some ("llpc.image.fetch")
    retTy := 0
    args := [Value.arg 0, Value.constInt 321] }

/-- `fetchZeroCall` after the erratum workaround has replaced operand 3. -/
def fetchPatchedCall : CallInst :=
  { id := 0
    callee := some ("llpc.image.fetch")
    retTy := 0
    args := [Value.arg 0, Value.arg 1, Value.arg 2, synthesizedTexelOffset,
             Value.constInt 321] }

/-- A concrete 2D sample call: metadata constant 64 decodes to
`OpKind = sample`, `Dim = 2d`; it matches neither rewrite rule. -/
def sample2dCall : CallInst :=
  { id := 0
    callee := some ("llpc.image.sample")
    retTy := 0
    args := [Value.arg 0, Value.constInt 64] }

/-- A concrete indirect call: no statically known callee. -/
def indirectCall : CallInst :=
  { id := 0, callee := none, retTy := 0, args := [] }

/-! ### Basic lemmas about decoding and the visitor -/

lemma decode_eq (c : CallInst) (u : Nat) (hlen : 2 ≤ c.args.length)
    (hlast : c.args[c.args.length - 1]? = some (Value.constInt u)) :
    decodeImageCallMeta c = some (unpackImageCallMeta u) := by
  unfold decodeImageCallMeta
  rw [if_pos hlen, hlast]

lemma visitCallInst_recognized (gfxIp : GfxIpVersion) (fr : Nat) (c : CallInst)
    (name : String) (md : ShaderImageCallMetadata)
    (hcallee : c.callee = some name)
    (hpre : strBeginsWith name imageCallTag = true)
    (hdec : decodeImageCallMeta c = some md) :
    visitCallInst gfxIp fr c =
      if md.OpKind = ImageOpKind.ImageOpQueryNonLod ∧
         md.Dim = ImageDim.DimBuffer then
        sizeQueryAction gfxIp fr name c
      else if md.Dim = ImageDim.DimBuffer ∧
              isOffsetErratumOpKind md.OpKind = true then
        offsetErratumAction gfxIp c
      else
        Except.ok VisitAction.noop := by
  unfold visitCallInst
  rw [hcallee]
  simp [hpre, hdec]

lemma scanFuel_nil (gfxIp : GfxIpVersion) (fuel : Nat) (st : ScanState) :
    scanFuel gfxIp fuel st [] = Except.ok st := by
  cases fuel <;> rfl

lemma scanFuel_step_simple (gfxIp : GfxIpVersion) (fuel : Nat) (st : ScanState)
    (i : Nat) (ops : List Value) (rest : List Instr) :
    scanFuel gfxIp (fuel + 1) st (Instr.simple i ops :: rest) =
      scanFuel gfxIp fuel { st with done := st.done ++ [Instr.simple i ops] } rest :=
  rfl

lemma scanFuel_step_noop (gfxIp : GfxIpVersion) (fuel : Nat) (st : ScanState)
    (c : CallInst) (rest : List Instr)
    (hv : visitCallInst gfxIp st.fresh c = Except.ok VisitAction.noop) :
    scanFuel gfxIp (fuel + 1) st (Instr.call c :: rest) =
      scanFuel gfxIp fuel { st with done := st.done ++ [Instr.call c] } rest := by
  simp only [scanFuel, hv]

lemma scanFuel_step_set (gfxIp : GfxIpVersion) (fuel : Nat) (st : ScanState)
    (c : CallInst) (v : Value) (rest : List Instr)
    (hv : visitCallInst gfxIp st.fresh c = Except.ok (VisitAction.setOperand3 v)) :
    scanFuel gfxIp (fuel + 1) st (Instr.call c :: rest) =
      scanFuel gfxIp fuel { st with done := st.done ++ [Instr.call (setOp3 v c)] } rest := by
  simp only [scanFuel, hv]

lemma scanFuel_step_replace (gfxIp : GfxIpVersion) (fuel : Nat) (st : ScanState)
    (c nc : CallInst) (rest : List Instr)
    (hv : visitCallInst gfxIp st.fresh c = Except.ok (VisitAction.replaceCall nc)) :
    scanFuel gfxIp (fuel + 1) st (Instr.call c :: rest) =
      scanFuel gfxIp fuel
        { done := (st.done ++ [Instr.call nc, Instr.call c]).map
            (substInstr c.id nc.id)
          pending := insertPending st.pending c.id
          fresh := st.fresh + 1 }
        (rest.map (substInstr c.id nc.id)) := by
  simp only [scanFuel, hv]

lemma scanFuel_step_error (gfxIp : GfxIpVersion) (fuel : Nat) (st : ScanState)
    (c : CallInst) (e : PassError) (rest : List Instr)
    (hv : visitCallInst gfxIp st.fresh c = Except.error e) :
    scanFuel gfxIp (fuel + 1) st (Instr.call c :: rest) = Except.error e := by
  simp only [scanFuel, hv]

/-! ### Claims about single visits -/

/-- Claim C1: for a recognized image call whose metadata decodes to
`OpKind = query-non-lod` and `Dim = buffer`, hardware major version 6 or
7 produces a replacement call whose callee is the original name with
suffix `.gfx6`; major version 8 produces suffix `.gfx8`; major version 9
or above leaves the call untouched (no replacement, no erasure). -/
theorem claim_C1 (gfxIp : GfxIpVersion) (c : CallInst) (name : String) (u : Nat)
    (hcallee : c.callee = some name)
    (hpre : strBeginsWith name imageCallTag = true)
    (hlen : 2 ≤ c.args.length)
    (hlast : c.args[c.args.length - 1]? = some (Value.constInt u))
    (hop : (unpackImageCallMeta u).OpKind = ImageOpKind.ImageOpQueryNonLod)
    (hdim : (unpackImageCallMeta u).Dim = ImageDim.DimBuffer) :
    ((gfxIp.major = 6 ∨ gfxIp.major = 7) → ∀ fr,
      visitCallInst gfxIp fr c = Except.ok (VisitAction.replaceCall
        { id := fr, callee := some (name ++ ".gfx6"), retTy := c.retTy,
          args := c.args })) ∧
    (gfxIp.major = 8 → ∀ fr,
      visitCallInst gfxIp fr c = Except.ok (VisitAction.replaceCall
        { id := fr, callee := some (name ++ ".gfx8"), retTy := c.retTy,
          args := c.args })) ∧
    (9 ≤ gfxIp.major →
      (∀ fr, visitCallInst gfxIp fr c = Except.ok VisitAction.noop) ∧
      ∀ fuel st rest, scanFuel gfxIp (fuel + 1) st (Instr.call c :: rest) =
        scanFuel gfxIp fuel { st with done := st.done ++ [Instr.call c] } rest) := by
  have hdec := decode_eq c u hlen hlast
  have hkey : ∀ fr, visitCallInst gfxIp fr c = sizeQueryAction gfxIp fr name c := by
    intro fr
    rw [visitCallInst_recognized gfxIp fr c name _ hcallee hpre hdec,
      if_pos ⟨hop, hdim⟩]
  refine ⟨?_, ?_, ?_⟩
  · intro h67 fr
    rw [hkey fr]
    rcases h67 with h6 | h7
    · simp [sizeQueryAction, gfxSuffix, h6]
    · simp [sizeQueryAction, gfxSuffix, h7]
  · intro h8 fr
    rw [hkey fr]
    simp [sizeQueryAction, gfxSuffix, h8]
  · intro h9
    have hnoop : ∀ fr, visitCallInst gfxIp fr c = Except.ok VisitAction.noop := by
      intro fr
      rw [hkey fr]
      unfold sizeQueryAction
      rw [if_neg (by omega)]
    exact ⟨hnoop, fun fuel st rest =>
      scanFuel_step_noop gfxIp fuel st c rest (hnoop st.fresh)⟩

/-- Claim C1 witness: on GFX7, the concrete query-size buffer call is
replaced by a `.gfx6`-suffixed call with the same operands. -/
theorem claim_C1_witness :
    visitCallInst gfx7ip 5 querySizeCall =
      Except.ok (VisitAction.replaceCall
        { id := 5, callee := some ("llpc.image.querysize" ++ ".gfx6"),
          retTy := querySizeCall.retTy, args := querySizeCall.args }) :=
  (claim_C1 gfx7ip querySizeCall ("llpc.image.querysize") 323 rfl (by decide)
    (by decide) (by decide) (by decide) (by decide)).1 (Or.inr rfl) 5

/-- Claim C8: for a recognized image call with at least two argument
operands whose last operand is a compile-time integer constant, metadata
decoding succeeds as a pure unpacking of that constant, and the visitor
never reaches the metadata contract-violation branch. -/
theorem claim_C8 (c : CallInst) (name : String) (u : Nat)
    (hcallee : c.callee = some name)
    (hpre : strBeginsWith name imageCallTag = true)
    (hlen : 2 ≤ c.args.length)
    (hlast : c.args[c.args.length - 1]? = some (Value.constInt u)) :
    decodeImageCallMeta c = some (unpackImageCallMeta u) ∧
    ∀ gfxIp fr j, visitCallInst gfxIp fr c ≠ Except.error (PassError.metaContract j) := by
  have hdec := decode_eq c u hlen hlast
  refine ⟨hdec, ?_⟩
  intro gfxIp fr j hcontra
  rw [visitCallInst_recognized gfxIp fr c name _ hcallee hpre hdec] at hcontra
  by_cases hA : (unpackImageCallMeta u).OpKind = ImageOpKind.ImageOpQueryNonLod ∧
      (unpackImageCallMeta u).Dim = ImageDim.DimBuffer
  · rw [if_pos hA] at hcontra
    unfold sizeQueryAction at hcontra
    split at hcontra <;> exact Except.noConfusion hcontra
  · rw [if_neg hA] at hcontra
    by_cases hB : (unpackImageCallMeta u).Dim = ImageDim.DimBuffer ∧
        isOffsetErratumOpKind (unpackImageCallMeta u).OpKind = true
    · rw [if_pos hB] at hcontra
      unfold offsetErratumAction at hcontra
      repeat' split at hcontra
      all_goals simp_all
    · rw [if_neg hB] at hcontra
      exact Except.noConfusion hcontra

/-- Claim C8 witness: the concrete query-size buffer call decodes
successfully and never trips the metadata contract. -/
theorem claim_C8_witness :
    decodeImageCallMeta querySizeCall = some (unpackImageCallMeta 323) ∧
    visitCallInst gfx9ip 5 querySizeCall ≠
      Except.error (PassError.metaContract 0) :=
  ⟨(claim_C8 querySizeCall ("llpc.image.querysize") 323 rfl (by decide)
      (by decide) (by decide)).1,
    (claim_C8 querySizeCall ("llpc.image.querysize") 323 rfl (by decide)
      (by decide) (by decide)).2 gfx9ip 5 0⟩

/-- Claim C6: a recognized image call whose decoded metadata matches
neither the size-query selector nor the offset-erratum selector is left
completely unchanged by the visitor, for every hardware version: the
action is a no-op, the pending-erasure set does not grow, and scanning
just moves the call across untouched. -/
theorem claim_C6 (c : CallInst) (name : String) (u : Nat)
    (hcallee : c.callee = some name)
    (hpre : strBeginsWith name imageCallTag = true)
    (hlen : 2 ≤ c.args.length)
    (hlast : c.args[c.args.length - 1]? = some (Value.constInt u))
    (hnotA : ¬((unpackImageCallMeta u).OpKind = ImageOpKind.ImageOpQueryNonLod ∧
               (unpackImageCallMeta u).Dim = ImageDim.DimBuffer))
    (hnotB : ¬((unpackImageCallMeta u).Dim = ImageDim.DimBuffer ∧
               isOffsetErratumOpKind (unpackImageCallMeta u).OpKind = true)) :
    (∀ gfxIp fr, visitCallInst gfxIp fr c = Except.ok VisitAction.noop) ∧
    (∀ gfxIp fuel st rest,
      scanFuel gfxIp (fuel + 1) st (Instr.call c :: rest) =
        scanFuel gfxIp fuel { st with done := st.done ++ [Instr.call c] } rest) := by
  have hdec := decode_eq c u hlen hlast
  have hnoop : ∀ gfxIp fr, visitCallInst gfxIp fr c = Except.ok VisitAction.noop := by
    intro gfxIp fr
    rw [visitCallInst_recognized gfxIp fr c name _ hcallee hpre hdec,
      if_neg hnotA, if_neg hnotB]
  exact ⟨hnoop, fun gfxIp fuel st rest =>
    scanFuel_step_noop gfxIp fuel st c rest (hnoop gfxIp st.fresh)⟩

/-- Claim C6 witness: the concrete 2D sample call is untouched on GFX9
(and every other version). -/
theorem claim_C6_witness :
    visitCallInst gfx9ip 5 sample2dCall = Except.ok VisitAction.noop :=
  (claim_C6 sample2dCall ("llpc.image.sample") 64 rfl (by decide) (by decide)
    (by decide) (by decide) (by decide)).1 gfx9ip 5

/-- Claim C10: a call with no statically known callee (an indirect call)
is left completely untouched by the pass, for every hardware version and
operand list: the visitor returns before any name check or decode. -/
theorem claim_C10 (c : CallInst) (hind : c.callee = none) :
    (∀ gfxIp fr, visitCallInst gfxIp fr c = Except.ok VisitAction.noop) ∧
    (∀ gfxIp fuel st rest,
      scanFuel gfxIp (fuel + 1) st (Instr.call c :: rest) =
        scanFuel gfxIp fuel { st with done := st.done ++ [Instr.call c] } rest) := by
  have hnoop : ∀ gfxIp fr, visitCallInst gfxIp fr c = Except.ok VisitAction.noop := by
    intro gfxIp fr
    unfold visitCallInst
    rw [hind]
  exact ⟨hnoop, fun gfxIp fuel st rest =>
    scanFuel_step_noop gfxIp fuel st c rest (hnoop gfxIp st.fresh)⟩

/-- Claim C10 witness: the concrete indirect call is untouched. -/
theorem claim_C10_witness :
    visitCallInst gfx9ip 5 indirectCall = Except.ok VisitAction.noop :=
  (claim_C10 indirectCall rfl).1 gfx9ip 5

/-- Claim C7: the two rule selectors are mutually exclusive on every
decoded metadata value, and consequently the visitor with the two rule
tests applied in the opposite order computes the same result on every
call, for every hardware version. -/
theorem claim_C7 :
    (∀ md : ShaderImageCallMetadata,
      ¬((md.OpKind = ImageOpKind.ImageOpQueryNonLod ∧
         md.Dim = ImageDim.DimBuffer) ∧
        (md.Dim = ImageDim.DimBuffer ∧
         isOffsetErratumOpKind md.OpKind = true))) ∧
    (∀ gfxIp fr c, visitCallInstSwapped gfxIp fr c = visitCallInst gfxIp fr c) := by
  constructor
  · rintro md ⟨⟨h1, -⟩, ⟨-, h3⟩⟩
    rw [h1] at h3
    exact absurd h3 (by decide)
  · intro gfxIp fr c
    unfold visitCallInstSwapped visitCallInst
    cases hcal : c.callee with
    | none => rfl
    | some name =>
      dsimp only
      by_cases hs : strBeginsWith name imageCallTag = true
      · rw [if_pos hs, if_pos hs]
        cases hdec : decodeImageCallMeta c with
        | none => rfl
        | some md =>
          dsimp only
          by_cases hA : md.OpKind = ImageOpKind.ImageOpQueryNonLod ∧
              md.Dim = ImageDim.DimBuffer
          · have hB : ¬(md.Dim = ImageDim.DimBuffer ∧
                isOffsetErratumOpKind md.OpKind = true) := by
              rintro ⟨-, h3⟩
              rw [hA.1] at h3
              exact absurd h3 (by decide)
            rw [if_neg hB, if_pos hA, if_pos hA]
          · by_cases hB : md.Dim = ImageDim.DimBuffer ∧
                isOffsetErratumOpKind md.OpKind = true
            · rw [if_pos hB, if_neg hA, if_pos hB]
            · rw [if_neg hB, if_neg hA, if_neg hA, if_neg hB]
      · rw [if_neg hs, if_neg hs]

/-- Claim C7 witness: mutual exclusivity at the concrete fetch metadata,
and agreement of the swapped visitor at the concrete fetch call. -/
theorem claim_C7_witness :
    (¬(((unpackImageCallMeta 321).OpKind = ImageOpKind.ImageOpQueryNonLod ∧
        (unpackImageCallMeta 321).Dim = ImageDim.DimBuffer) ∧
       ((unpackImageCallMeta 321).Dim = ImageDim.DimBuffer ∧
        isOffsetErratumOpKind (unpackImageCallMeta 321).OpKind = true))) ∧
    visitCallInstSwapped gfx9ip 0 fetchZeroCall = visitCallInst gfx9ip 0 fetchZeroCall :=
  ⟨claim_C7.1 (unpackImageCallMeta 321), claim_C7.2 gfx9ip 0 fetchZeroCall⟩

/-- Claim C3: for a recognized call whose metadata decodes to
`Dim = buffer` with an erratum-listed `OpKind`, on major version 9 with a
constant-zero operand at index 3, the visitor replaces operand 3 in place
by the expression `lshr(high-half(pc), 24)` — not a compile-time constant,
but always zero at runtime since the top 8 bits of the program counter
are zero — while the call identity, callee, all other operands and the
pending-erasure set are unchanged. -/
theorem claim_C3 (gfxIp : GfxIpVersion) (c : CallInst) (name : String) (u : Nat)
    (hcallee : c.callee = some name)
    (hpre : strBeginsWith name imageCallTag = true)
    (hlen : 2 ≤ c.args.length)
    (hlast : c.args[c.args.length - 1]? = some (Value.constInt u))
    (hdim : (unpackImageCallMeta u).Dim = ImageDim.DimBuffer)
    (hop : isOffsetErratumOpKind (unpackImageCallMeta u).OpKind = true)
    (hmaj : gfxIp.major = 9)
    (hoff : c.args[3]? = some (Value.constInt 0)) :
    (∀ fr, visitCallInst gfxIp fr c =
      Except.ok (VisitAction.setOperand3 synthesizedTexelOffset)) ∧
    Value.isConstInt synthesizedTexelOffset = false ∧
    (∀ e : Env, e.pc < 2 ^ 56 → evalValue e synthesizedTexelOffset = 0) ∧
    (setOp3 synthesizedTexelOffset c).id = c.id ∧
    (setOp3 synthesizedTexelOffset c).callee = c.callee ∧
    (∀ i, i ≠ 3 → (setOp3 synthesizedTexelOffset c).args[i]? = c.args[i]?) ∧
    (∀ fuel st rest,
      scanFuel gfxIp (fuel + 1) st (Instr.call c :: rest) =
        scanFuel gfxIp fuel
          { st with done := st.done ++ [Instr.call (setOp3 synthesizedTexelOffset c)] }
          rest) := by
  have hdec := decode_eq c u hlen hlast
  have hnotA : ¬((unpackImageCallMeta u).OpKind = ImageOpKind.ImageOpQueryNonLod ∧
      (unpackImageCallMeta u).Dim = ImageDim.DimBuffer) := by
    rintro ⟨h1, -⟩
    rw [h1] at hop
    exact absurd hop (by decide)
  have hset : ∀ fr, visitCallInst gfxIp fr c =
      Except.ok (VisitAction.setOperand3 synthesizedTexelOffset) := by
    intro fr
    rw [visitCallInst_recognized gfxIp fr c name _ hcallee hpre hdec,
      if_neg hnotA, if_pos ⟨hdim, hop⟩]
    unfold offsetErratumAction
    rw [if_pos hmaj, hoff]
    simp
  refine ⟨hset, rfl, ?_, rfl, rfl, ?_, ?_⟩
  · intro e he
    have h64 : e.pc % 2 ^ 64 = e.pc :=
      Nat.mod_eq_of_lt (lt_trans he (by norm_num))
    have hdivlt : e.pc / 2 ^ 32 < 2 ^ 24 := by
      apply Nat.div_lt_of_lt_mul
      calc e.pc < 2 ^ 56 := he
        _ = 2 ^ 32 * 2 ^ 24 := by norm_num
    have hmod : e.pc / 2 ^ 32 % 2 ^ 32 = e.pc / 2 ^ 32 :=
      Nat.mod_eq_of_lt (lt_trans hdivlt (by norm_num))
    show (e.pc % 2 ^ 64 / 2 ^ (32 * 1) % 2 ^ 32) % 2 ^ 32 / 2 ^ 24 = 0
    rw [h64, show 32 * 1 = 32 from rfl, hmod, hmod]
    exact Nat.div_eq_of_lt hdivlt
  · intro i hi
    show (c.args.set 3 synthesizedTexelOffset)[i]? = c.args[i]?
    rw [List.getElem?_set_ne (by omega)]
  · exact fun fuel st rest =>
      scanFuel_step_set gfxIp fuel st c synthesizedTexelOffset rest (hset st.fresh)

/-- Claim C3 witness: the concrete buffer-fetch call with constant-zero
offset is patched in place on GFX9. -/
theorem claim_C3_witness :
    visitCallInst gfx9ip 5 fetchZeroCall =
      Except.ok (VisitAction.setOperand3 synthesizedTexelOffset) :=
  (claim_C3 gfx9ip fetchZeroCall ("llpc.image.fetch") 321 rfl (by decide)
    (by decide) (by decide) (by decide) (by decide) rfl rfl).1 5

/-- Claim C4: for a call matching the offset-erratum selector, if the
major version is not 9, or operand 3 is not a compile-time integer
constant, or it is a constant with nonzero value, the visitor performs no
mutation at all: the action is a no-op and scanning moves the call across
untouched, with the pending-erasure set unchanged. -/
theorem claim_C4 (gfxIp : GfxIpVersion) (c : CallInst) (name : String) (u : Nat)
    (hcallee : c.callee = some name)
    (hpre : strBeginsWith name imageCallTag = true)
    (hlen : 2 ≤ c.args.length)
    (hlast : c.args[c.args.length - 1]? = some (Value.constInt u))
    (hdim : (unpackImageCallMeta u).Dim = ImageDim.DimBuffer)
    (hop : isOffsetErratumOpKind (unpackImageCallMeta u).OpKind = true)
    (hguard : gfxIp.major ≠ 9 ∨
      (∃ v, c.args[3]? = some v ∧ Value.isConstInt v = false) ∨
      (∃ t, c.args[3]? = some (Value.constInt t) ∧ t ≠ 0)) :
    (∀ fr, visitCallInst gfxIp fr c = Except.ok VisitAction.noop) ∧
    (∀ fuel st rest,
      scanFuel gfxIp (fuel + 1) st (Instr.call c :: rest) =
        scanFuel gfxIp fuel { st with done := st.done ++ [Instr.call c] } rest) := by
  have hdec := decode_eq c u hlen hlast
  have hnotA : ¬((unpackImageCallMeta u).OpKind = ImageOpKind.ImageOpQueryNonLod ∧
      (unpackImageCallMeta u).Dim = ImageDim.DimBuffer) := by
    rintro ⟨h1, -⟩
    rw [h1] at hop
    exact absurd hop (by decide)
  have hnoop : ∀ fr, visitCallInst gfxIp fr c = Except.ok VisitAction.noop := by
    intro fr
    rw [visitCallInst_recognized gfxIp fr c name _ hcallee hpre hdec,
      if_neg hnotA, if_pos ⟨hdim, hop⟩]
    unfold offsetErratumAction
    rcases hguard with h9 | ⟨v, hv, hvc⟩ | ⟨t, hv, ht⟩
    · rw [if_neg h9]
    · by_cases h9 : gfxIp.major = 9
      · rw [if_pos h9, hv]
        cases v <;> simp_all [Value.isConstInt]
      · rw [if_neg h9]
    · by_cases h9 : gfxIp.major = 9
      · rw [if_pos h9, hv]
        simp [ht]
      · rw [if_neg h9]
  exact ⟨hnoop, fun fuel st rest =>
    scanFuel_step_noop gfxIp fuel st c rest (hnoop st.fresh)⟩

/-- Claim C4 witness: the concrete zero-offset buffer-fetch call is
untouched on GFX8 (major version not 9). -/
theorem claim_C4_witness :
    visitCallInst gfx8ip 5 fetchZeroCall = Except.ok VisitAction.noop :=
  (claim_C4 gfx8ip fetchZeroCall ("llpc.image.fetch") 321 rfl (by decide)
    (by decide) (by decide) (by decide) (by decide) (Or.inl (by decide))).1 5

/-! ### Lemmas about the size-query selector and replacement calls -/

lemma isSizeQueryCandidate_intro (c : CallInst) (name : String)
    (md : ShaderImageCallMetadata)
    (hcal : c.callee = some name)
    (hs : strBeginsWith name imageCallTag = true)
    (hdec : decodeImageCallMeta c = some md)
    (h1 : md.OpKind = ImageOpKind.ImageOpQueryNonLod)
    (h2 : md.Dim = ImageDim.DimBuffer) :
    isSizeQueryCandidate c = true := by
  simp [isSizeQueryCandidate, hcal, hs, hdec, h1, h2]

lemma sizeQueryCandidate_parts (c : CallInst)
    (hcand : isSizeQueryCandidate c = true) :
    c.callee = some (calleeStr c) ∧
    strBeginsWith (calleeStr c) imageCallTag = true ∧
    ∃ md, decodeImageCallMeta c = some md ∧
      md.OpKind = ImageOpKind.ImageOpQueryNonLod ∧
      md.Dim = ImageDim.DimBuffer := by
  unfold isSizeQueryCandidate at hcand
  cases hcal : c.callee with
  | none =>
    rw [hcal] at hcand
    exact absurd hcand (by simp)
  | some name =>
    rw [hcal] at hcand
    simp only [Bool.and_eq_true] at hcand
    obtain ⟨hs, hrest⟩ := hcand
    cases hdec : decodeImageCallMeta c with
    | none =>
      rw [hdec] at hrest
      exact absurd hrest (by simp)
    | some md =>
      rw [hdec] at hrest
      simp only [Bool.and_eq_true, decide_eq_true_eq] at hrest
      exact ⟨by simp [calleeStr, hcal], by simpa [calleeStr, hcal] using hs,
        md, rfl, hrest.1, hrest.2⟩

lemma visit_candidate_replace (gfxIp : GfxIpVersion) (c : CallInst)
    (hcand : isSizeQueryCandidate c = true) (hmaj : gfxIp.major ≤ 8) (fr : Nat) :
    visitCallInst gfxIp fr c = Except.ok (VisitAction.replaceCall
      { id := fr, callee := some (calleeStr c ++ gfxSuffix gfxIp),
        retTy := c.retTy, args := c.args }) := by
  obtain ⟨hcal, hs, md, hdec, h1, h2⟩ := sizeQueryCandidate_parts c hcand
  rw [visitCallInst_recognized gfxIp fr c (calleeStr c) md hcal hs hdec,
    if_pos ⟨h1, h2⟩]
  unfold sizeQueryAction
  rw [if_pos hmaj]

lemma visit_replaceCall_full_inv (gfxIp : GfxIpVersion) (fr : Nat) (c nc : CallInst)
    (h : visitCallInst gfxIp fr c = Except.ok (VisitAction.replaceCall nc)) :
    gfxIp.major ≤ 8 ∧ isSizeQueryCandidate c = true ∧
    nc = { id := fr, callee := some (calleeStr c ++ gfxSuffix gfxIp),
           retTy := c.retTy, args := c.args } := by
  unfold visitCallInst at h
  cases hcal : c.callee with
  | none =>
    rw [hcal] at h
    exact absurd h (by simp)
  | some name =>
    rw [hcal] at h
    dsimp only at h
    by_cases hs : strBeginsWith name imageCallTag = true
    · rw [if_pos hs] at h
      cases hdec : decodeImageCallMeta c with
      | none =>
        rw [hdec] at h
        exact absurd h (by simp)
      | some md =>
        rw [hdec] at h
        dsimp only at h
        by_cases hA : md.OpKind = ImageOpKind.ImageOpQueryNonLod ∧
            md.Dim = ImageDim.DimBuffer
        · rw [if_pos hA] at h
          unfold sizeQueryAction at h
          by_cases hm : gfxIp.major ≤ 8
          · rw [if_pos hm] at h
            have hnc := VisitAction.replaceCall.inj (Except.ok.inj h)
            refine ⟨hm, isSizeQueryCandidate_intro c name md hcal hs hdec hA.1 hA.2, ?_⟩
            rw [← hnc]
            simp [calleeStr, hcal]
          · rw [if_neg hm] at h
            exact absurd h (by simp)
        · rw [if_neg hA] at h
          by_cases hB : md.Dim = ImageDim.DimBuffer ∧
              isOffsetErratumOpKind md.OpKind = true
          · rw [if_pos hB] at h
            unfold offsetErratumAction at h
            repeat' split at h
            all_goals simp_all
          · rw [if_neg hB] at h
            exact absurd h (by simp)
    · rw [if_neg hs] at h
      exact absurd h (by simp)

lemma strBeginsWith_append (s t p : String)
    (h : strBeginsWith s p = true) : strBeginsWith (s ++ t) p = true := by
  unfold strBeginsWith at h ⊢
  rw [List.isPrefixOf_iff_prefix] at h ⊢
  rw [String.data_append]
  exact h.trans (List.prefix_append s.data t.data)

lemma decode_congr_args (c1 c2 : CallInst) (h : c1.args = c2.args) :
    decodeImageCallMeta c1 = decodeImageCallMeta c2 := by
  unfold decodeImageCallMeta
  rw [h]

/-! ### Claims C5 and C9 -/

/-- Claim C5 counterexample: the pass is not idempotent.  On GFX6, one
run rewrites the concrete query-size buffer call to a `.gfx6`-suffixed
call, and a second run over that output rewrites it again to a
`.gfx6.gfx6`-suffixed call, so the second run is not a no-op. -/
theorem claim_C5_counterexample :
    runOnModule gfx6ip 1 moduleBefore = Except.ok moduleOnce ∧
    runOnModule gfx6ip 2 moduleOnce = Except.ok moduleTwice ∧
    moduleTwice ≠ moduleOnce :=
  ⟨by decide, by decide, by decide⟩

/-- Claim C5 (amended): a second run of the pass is a no-op on calls
patched by the offset-erratum rule (the synthesized operand is not a
compile-time constant, so the constant-zero guard no longer matches), but
every call produced by the size-query rule keeps the recognized name
marker and the same metadata operand, so it is again a size-query
candidate and is rewritten a second time, appending a second hardware
suffix; the pass is therefore idempotent only when no size-query rewrite
occurred. -/
theorem claim_C5_amended :
    (∀ gfxIp fr (c : CallInst) name u,
      c.callee = some name →
      strBeginsWith name imageCallTag = true →
      2 ≤ c.args.length →
      c.args[c.args.length - 1]? = some (Value.constInt u) →
      (unpackImageCallMeta u).Dim = ImageDim.DimBuffer →
      isOffsetErratumOpKind (unpackImageCallMeta u).OpKind = true →
      c.args[3]? = some synthesizedTexelOffset →
      visitCallInst gfxIp fr c = Except.ok VisitAction.noop) ∧
    (∀ gfxIp fr fr2 (c nc : CallInst),
      visitCallInst gfxIp fr c = Except.ok (VisitAction.replaceCall nc) →
      isSizeQueryCandidate nc = true ∧
      visitCallInst gfxIp fr2 nc = Except.ok (VisitAction.replaceCall
        { id := fr2,
          callee := some (calleeStr c ++ gfxSuffix gfxIp ++ gfxSuffix gfxIp),
          retTy := c.retTy, args := c.args })) := by
  constructor
  · intro gfxIp fr c name u hcallee hpre hlen hlast hdim hop hv
    have hdec := decode_eq c u hlen hlast
    have hnotA : ¬((unpackImageCallMeta u).OpKind = ImageOpKind.ImageOpQueryNonLod ∧
        (unpackImageCallMeta u).Dim = ImageDim.DimBuffer) := by
      rintro ⟨h1, -⟩
      rw [h1] at hop
      exact absurd hop (by decide)
    rw [visitCallInst_recognized gfxIp fr c name _ hcallee hpre hdec,
      if_neg hnotA, if_pos ⟨hdim, hop⟩]
    unfold offsetErratumAction
    by_cases h9 : gfxIp.major = 9
    · rw [if_pos h9, hv]
      simp [synthesizedTexelOffset]
    · rw [if_neg h9]
  · intro gfxIp fr fr2 c nc h
    obtain ⟨hm, hcand, hnc⟩ := visit_replaceCall_full_inv gfxIp fr c nc h
    obtain ⟨hcal, hs, md, hdec, h1, h2⟩ := sizeQueryCandidate_parts c hcand
    subst hnc
    have hdec2 : decodeImageCallMeta
        { id := fr, callee := some (calleeStr c ++ gfxSuffix gfxIp),
          retTy := c.retTy, args := c.args } = some md :=
      (decode_congr_args
        { id := fr, callee := some (calleeStr c ++ gfxSuffix gfxIp),
          retTy := c.retTy, args := c.args } c rfl).trans hdec
    have hcand2 : isSizeQueryCandidate
        { id := fr, callee := some (calleeStr c ++ gfxSuffix gfxIp),
          retTy := c.retTy, args := c.args } = true :=
      isSizeQueryCandidate_intro _ (calleeStr c ++ gfxSuffix gfxIp) md rfl
        (strBeginsWith_append _ _ _ hs) hdec2 h1 h2
    refine ⟨hcand2, ?_⟩
    simpa [calleeStr] using visit_candidate_replace gfxIp _ hcand2 hm fr2

/-- Claim C5 witness: the concrete erratum-patched fetch call is a no-op
for a second visit on GFX9. -/
theorem claim_C5_witness :
    visitCallInst gfx9ip 5 fetchPatchedCall = Except.ok VisitAction.noop :=
  claim_C5_amended.1 gfx9ip 5 fetchPatchedCall ("llpc.image.fetch") 321
    rfl (by decide) (by decide) (by decide) (by decide) (by decide) rfl

/-- Claim C9: the erratum workaround reads operand 3 guarded only by the
two-operand assertion.  The out-of-bounds branch is unreachable exactly
under the additional precondition that every offset-erratum candidate on
major-version-9 hardware has at least 4 argument operands; the stated
two-operand contract alone does not suffice, witnessed by a recognized
buffer-fetch call with two operands (satisfying the metadata contract)
that reaches the out-of-bounds branch on GFX9. -/
theorem claim_C9 :
    (∀ gfxIp (c : CallInst) fr,
      ((isOffsetErratumCandidate c = true ∧ gfxIp.major = 9) → 4 ≤ c.args.length) →
      ∀ j, visitCallInst gfxIp fr c ≠ Except.error (PassError.oobOperand j)) ∧
    (2 ≤ fetchShortCall.args.length ∧
     fetchShortCall.args[fetchShortCall.args.length - 1]? =
       some (Value.constInt 321) ∧
     visitCallInst gfx9ip 0 fetchShortCall =
       Except.error (PassError.oobOperand 0)) := by
  constructor
  · intro gfxIp c fr hcond j hcontra
    unfold visitCallInst at hcontra
    cases hcal : c.callee with
    | none =>
      rw [hcal] at hcontra
      exact Except.noConfusion hcontra
    | some name =>
      rw [hcal] at hcontra
      dsimp only at hcontra
      by_cases hs : strBeginsWith name imageCallTag = true
      · rw [if_pos hs] at hcontra
        cases hdec : decodeImageCallMeta c with
        | none =>
          rw [hdec] at hcontra
          exact PassError.noConfusion (Except.error.inj hcontra)
        | some md =>
          rw [hdec] at hcontra
          dsimp only at hcontra
          by_cases hA : md.OpKind = ImageOpKind.ImageOpQueryNonLod ∧
              md.Dim = ImageDim.DimBuffer
          · rw [if_pos hA] at hcontra
            unfold sizeQueryAction at hcontra
            split at hcontra <;> exact Except.noConfusion hcontra
          · rw [if_neg hA] at hcontra
            by_cases hB : md.Dim = ImageDim.DimBuffer ∧
                isOffsetErratumOpKind md.OpKind = true
            · rw [if_pos hB] at hcontra
              unfold offsetErratumAction at hcontra
              by_cases h9 : gfxIp.major = 9
              · rw [if_pos h9] at hcontra
                cases hoff : c.args[3]? with
                | none =>
                  have hcand : isOffsetErratumCandidate c = true := by
                    simp [isOffsetErratumCandidate, hcal, hs, hdec, hB.1, hB.2]
                  have hlen4 := hcond ⟨hcand, h9⟩
                  rw [List.getElem?_eq_getElem (by omega)] at hoff
                  exact Option.noConfusion hoff
                | some v =>
                  rw [hoff] at hcontra
                  cases v <;> dsimp only at hcontra <;>
                    first
                    | exact Except.noConfusion hcontra
                    | (split at hcontra <;> exact Except.noConfusion hcontra)
              · rw [if_neg h9] at hcontra
                exact Except.noConfusion hcontra
            · rw [if_neg hB] at hcontra
              exact Except.noConfusion hcontra
      · rw [if_neg hs] at hcontra
        exact Except.noConfusion hcontra
  · exact ⟨by decide, by decide, by decide⟩

/-- Claim C9 witness: the strengthened precondition holds for the
concrete five-operand fetch call, so it never reaches the out-of-bounds
branch. -/
theorem claim_C9_witness :
    visitCallInst gfx9ip 0 fetchZeroCall ≠
      Except.error (PassError.oobOperand 0) :=
  claim_C9.1 gfx9ip fetchZeroCall 0 (by decide) 0

/-! ### Lemmas about uses, substitution and the pending set -/

lemma visit_setOperand3_inv {gfxIp : GfxIpVersion} {fr : Nat} {c : CallInst}
    {v : Value}
    (h : visitCallInst gfxIp fr c = Except.ok (VisitAction.setOperand3 v)) :
    v = synthesizedTexelOffset := by
  unfold visitCallInst sizeQueryAction offsetErratumAction at h
  repeat' split at h
  all_goals simp_all

lemma valueUses_subst_elim (o m : Nat) (hne : m ≠ o) :
    ∀ v : Value, valueUses o (substValue o m v) = false := by
  intro v
  induction v with
  | constInt t => rfl
  | arg n => rfl
  | callResult i =>
    by_cases hio : i = o
    · simp [substValue, valueUses, hio, hne]
    · simp [substValue, valueUses, hio]
  | getPC => rfl
  | bitcastV2i32 a ih => simpa [substValue, valueUses] using ih
  | extractElem a i ih => simpa [substValue, valueUses] using ih
  | lshr a k ih => simpa [substValue, valueUses] using ih

lemma valueUses_subst_keep (n o m : Nat) (hnm : n ≠ m) :
    ∀ v : Value, valueUses n v = false →
      valueUses n (substValue o m v) = false := by
  intro v
  induction v with
  | constInt t => intro h; exact h
  | arg i => intro h; exact h
  | callResult i =>
    intro h
    by_cases hio : i = o
    · simp [substValue, hio, valueUses, Ne.symm hnm]
    · simpa [substValue, hio, valueUses] using h
  | getPC => intro h; exact h
  | bitcastV2i32 a ih =>
    intro h
    simpa [substValue, valueUses] using ih (by simpa [valueUses] using h)
  | extractElem a i ih =>
    intro h
    simpa [substValue, valueUses] using ih (by simpa [valueUses] using h)
  | lshr a k ih =>
    intro h
    simpa [substValue, valueUses] using ih (by simpa [valueUses] using h)

lemma instrUses_subst_elim (o m : Nat) (hne : m ≠ o) (i : Instr) :
    instrUses o (substInstr o m i) = false := by
  cases i with
  | call c =>
    simp only [substInstr, instrUses, substCallArgs, List.any_map,
      List.any_eq_false, Function.comp]
    intro x hx
    simp [valueUses_subst_elim o m hne x]
  | simple j ops =>
    simp only [substInstr, instrUses, List.any_map, List.any_eq_false,
      Function.comp]
    intro x hx
    simp [valueUses_subst_elim o m hne x]

lemma instrUses_subst_keep (n o m : Nat) (hnm : n ≠ m) (i : Instr)
    (h : instrUses n i = false) :
    instrUses n (substInstr o m i) = false := by
  cases i with
  | call c =>
    simp only [instrUses, List.any_eq_false] at h
    simp only [substInstr, instrUses, substCallArgs, List.any_map,
      List.any_eq_false, Function.comp]
    intro x hx
    simp [valueUses_subst_keep n o m hnm x (by simpa using h x hx)]
  | simple j ops =>
    simp only [instrUses, List.any_eq_false] at h
    simp only [substInstr, instrUses, List.any_map, List.any_eq_false,
      Function.comp]
    intro x hx
    simp [valueUses_subst_keep n o m hnm x (by simpa using h x hx)]

lemma valueUses_synth (n : Nat) : valueUses n synthesizedTexelOffset = false := rfl

lemma instrUses_setOp3 (n : Nat) (c : CallInst) (v : Value)
    (hc : instrUses n (Instr.call c) = false) (hv : valueUses n v = false) :
    instrUses n (Instr.call (setOp3 v c)) = false := by
  simp only [instrUses, setOp3, List.any_eq_false] at hc ⊢
  intro x hx
  rcases List.mem_or_eq_of_mem_set hx with hmem | rfl
  · exact hc x hmem
  · simp [hv]

lemma insertPending_mem_self (s : List Nat) (x : Nat) :
    x ∈ insertPending s x := by
  unfold insertPending
  split
  · assumption
  · simp

lemma insertPending_mem_mono (s : List Nat) (x y : Nat) (h : y ∈ s) :
    y ∈ insertPending s x := by
  unfold insertPending
  split
  · exact h
  · exact List.mem_append_left _ h

lemma decode_substCallArgs (o m : Nat) (c : CallInst) :
    decodeImageCallMeta (substCallArgs o m c) = decodeImageCallMeta c := by
  unfold decodeImageCallMeta substCallArgs
  simp only [List.length_map, List.getElem?_map]
  cases h : c.args[c.args.length - 1]? with
  | none => simp
  | some v => cases v <;> simp [substValue]

lemma isSizeQueryCandidate_substCallArgs (o m : Nat) (c : CallInst) :
    isSizeQueryCandidate (substCallArgs o m c) = isSizeQueryCandidate c := by
  have h1 : (substCallArgs o m c).callee = c.callee := rfl
  unfold isSizeQueryCandidate
  rw [h1, decode_substCallArgs o m c]

/-! ### Invariants of the scan -/

lemma scanFuel_fresh_mono (gfxIp : GfxIpVersion) :
    ∀ fuel todo (st st2 : ScanState),
      scanFuel gfxIp fuel st todo = Except.ok st2 → st.fresh ≤ st2.fresh := by
  intro fuel
  induction fuel with
  | zero =>
    intro todo st st2 h
    cases todo <;> simp only [scanFuel] at h <;> (cases h; exact Nat.le_refl _)
  | succ n ih =>
    intro todo st st2 h
    cases todo with
    | nil =>
      rw [scanFuel_nil] at h
      cases h
      exact Nat.le_refl _
    | cons instr rest =>
      cases instr with
      | simple i ops =>
        rw [scanFuel_step_simple] at h
        exact ih rest { st with done := st.done ++ [Instr.simple i ops] } st2 h
      | call c =>
        cases hv : visitCallInst gfxIp st.fresh c with
        | error e =>
          rw [scanFuel_step_error gfxIp n st c e rest hv] at h
          exact Except.noConfusion h
        | ok act =>
          cases act with
          | noop =>
            rw [scanFuel_step_noop gfxIp n st c rest hv] at h
            exact ih rest { st with done := st.done ++ [Instr.call c] } st2 h
          | setOperand3 v =>
            rw [scanFuel_step_set gfxIp n st c v rest hv] at h
            exact ih rest { st with done := st.done ++ [Instr.call (setOp3 v c)] } st2 h
          | replaceCall nc =>
            rw [scanFuel_step_replace gfxIp n st c nc rest hv] at h
            exact Nat.le_trans (Nat.le_succ _) (ih _ _ st2 h)

lemma scanFuel_pending_mono (gfxIp : GfxIpVersion) (x : Nat) :
    ∀ fuel todo (st st2 : ScanState),
      scanFuel gfxIp fuel st todo = Except.ok st2 →
      x ∈ st.pending → x ∈ st2.pending := by
  intro fuel
  induction fuel with
  | zero =>
    intro todo st st2 h hx
    cases todo <;> simp only [scanFuel] at h <;> (cases h; exact hx)
  | succ n ih =>
    intro todo st st2 h hx
    cases todo with
    | nil =>
      rw [scanFuel_nil] at h
      cases h
      exact hx
    | cons instr rest =>
      cases instr with
      | simple i ops =>
        rw [scanFuel_step_simple] at h
        exact ih rest { st with done := st.done ++ [Instr.simple i ops] } st2 h hx
      | call c =>
        cases hv : visitCallInst gfxIp st.fresh c with
        | error e =>
          rw [scanFuel_step_error gfxIp n st c e rest hv] at h
          exact Except.noConfusion h
        | ok act =>
          cases act with
          | noop =>
            rw [scanFuel_step_noop gfxIp n st c rest hv] at h
            exact ih rest { st with done := st.done ++ [Instr.call c] } st2 h hx
          | setOperand3 v =>
            rw [scanFuel_step_set gfxIp n st c v rest hv] at h
            exact ih rest { st with done := st.done ++ [Instr.call (setOp3 v c)] } st2 h hx
          | replaceCall nc =>
            rw [scanFuel_step_replace gfxIp n st c nc rest hv] at h
            exact ih _ _ st2 h (insertPending_mem_mono st.pending c.id x hx)

lemma scanFuel_free (gfxIp : GfxIpVersion) (n : Nat) :
    ∀ fuel todo (st st2 : ScanState),
      scanFuel gfxIp fuel st todo = Except.ok st2 →
      (∀ i ∈ st.done, instrUses n i = false) →
      (∀ i ∈ todo, instrUses n i = false) →
      n < st.fresh →
      ∀ i ∈ st2.done, instrUses n i = false := by
  intro fuel
  induction fuel with
  | zero =>
    intro todo st st2 h hdone htodo hlt
    cases todo <;> simp only [scanFuel] at h <;> (cases h; exact hdone)
  | succ k ih =>
    intro todo st st2 h hdone htodo hlt
    cases todo with
    | nil =>
      rw [scanFuel_nil] at h
      cases h
      exact hdone
    | cons instr rest =>
      cases instr with
      | simple i ops =>
        rw [scanFuel_step_simple] at h
        refine ih rest _ st2 h ?_ ?_ hlt
        · intro x hx
          rcases List.mem_append.mp hx with hm | hm
          · exact hdone x hm
          · rw [List.mem_singleton.mp hm]
            exact htodo _ (List.mem_cons_self _ _)
        · exact fun x hx => htodo x (List.mem_cons_of_mem _ hx)
      | call c =>
        cases hv : visitCallInst gfxIp st.fresh c with
        | error e =>
          rw [scanFuel_step_error gfxIp k st c e rest hv] at h
          exact Except.noConfusion h
        | ok act =>
          cases act with
          | noop =>
            rw [scanFuel_step_noop gfxIp k st c rest hv] at h
            refine ih rest _ st2 h ?_ ?_ hlt
            · intro x hx
              rcases List.mem_append.mp hx with hm | hm
              · exact hdone x hm
              · rw [List.mem_singleton.mp hm]
                exact htodo _ (List.mem_cons_self _ _)
            · exact fun x hx => htodo x (List.mem_cons_of_mem _ hx)
          | setOperand3 v =>
            rw [scanFuel_step_set gfxIp k st c v rest hv] at h
            refine ih rest _ st2 h ?_ ?_ hlt
            · intro x hx
              rcases List.mem_append.mp hx with hm | hm
              · exact hdone x hm
              · rw [List.mem_singleton.mp hm]
                rw [visit_setOperand3_inv hv]
                exact instrUses_setOp3 n c synthesizedTexelOffset
                  (htodo _ (List.mem_cons_self _ _)) (valueUses_synth n)
            · exact fun x hx => htodo x (List.mem_cons_of_mem _ hx)
          | replaceCall nc =>
            obtain ⟨-, -, hnc⟩ := visit_replaceCall_full_inv gfxIp st.fresh c nc hv
            have hncid : nc.id = st.fresh := by rw [hnc]
            have hncargs : nc.args = c.args := by rw [hnc]
            have hnne : n ≠ nc.id := by omega
            rw [scanFuel_step_replace gfxIp k st c nc rest hv] at h
            refine ih _ _ st2 h ?_ ?_ ?_
            · intro x hx
              rw [List.mem_map] at hx
              obtain ⟨x0, hx0, rfl⟩ := hx
              refine instrUses_subst_keep n c.id nc.id hnne x0 ?_
              rcases List.mem_append.mp hx0 with hm | hm
              · exact hdone x0 hm
              · have hc0 : instrUses n (Instr.call c) = false :=
                  htodo _ (List.mem_cons_self _ _)
                have hm2 : x0 = Instr.call nc ∨ x0 = Instr.call c := by
                  simpa using hm
                rcases hm2 with rfl | rfl
                · simp only [instrUses, hncargs]
                  simpa [instrUses] using hc0
                · exact hc0
            · intro x hx
              rw [List.mem_map] at hx
              obtain ⟨x0, hx0, rfl⟩ := hx
              exact instrUses_subst_keep n c.id nc.id hnne x0
                (htodo x0 (List.mem_cons_of_mem _ hx0))
            · exact Nat.lt_succ_of_lt hlt

lemma scanFuel_reaches_sizeQuery (gfxIp : GfxIpVersion) (hmaj : gfxIp.major ≤ 8) :
    ∀ fuel l1 (cq : CallInst) l2 (st st2 : ScanState),
      scanFuel gfxIp fuel st (l1 ++ Instr.call cq :: l2) = Except.ok st2 →
      (l1 ++ Instr.call cq :: l2).length ≤ fuel →
      isSizeQueryCandidate cq = true →
      cq.id < st.fresh →
      cq.id ∈ st2.pending ∧ ∀ i ∈ st2.done, instrUses cq.id i = false := by
  intro fuel
  induction fuel with
  | zero =>
    intro l1 cq l2 st st2 h hlen hcand hid
    exfalso
    simp [List.length_append] at hlen
  | succ k ih =>
    intro l1 cq l2 st st2 h hlen hcand hid
    cases l1 with
    | nil =>
      simp only [List.nil_append] at h
      have hv := visit_candidate_replace gfxIp cq hcand hmaj st.fresh
      rw [scanFuel_step_replace gfxIp k st cq _ l2 hv] at h
      constructor
      · exact scanFuel_pending_mono gfxIp cq.id k _ _ st2 h
          (insertPending_mem_self st.pending cq.id)
      · refine scanFuel_free gfxIp cq.id k _ _ st2 h ?_ ?_ ?_
        · intro x hx
          rw [List.mem_map] at hx
          obtain ⟨x0, hx0, rfl⟩ := hx
          exact instrUses_subst_elim cq.id _ (by show st.fresh ≠ cq.id; omega) x0
        · intro x hx
          rw [List.mem_map] at hx
          obtain ⟨x0, hx0, rfl⟩ := hx
          exact instrUses_subst_elim cq.id _ (by show st.fresh ≠ cq.id; omega) x0
        · exact Nat.lt_succ_of_lt hid
    | cons j l1t =>
      have hlen2 : (l1t ++ Instr.call cq :: l2).length ≤ k := by
        simp only [List.length_append, List.length_cons] at hlen ⊢
        omega
      rw [List.cons_append] at h
      cases j with
      | simple i ops =>
        rw [scanFuel_step_simple] at h
        exact ih l1t cq l2 _ st2 h hlen2 hcand hid
      | call d =>
        cases hv : visitCallInst gfxIp st.fresh d with
        | error e =>
          rw [scanFuel_step_error gfxIp k st d e _ hv] at h
          exact Except.noConfusion h
        | ok act =>
          cases act with
          | noop =>
            rw [scanFuel_step_noop gfxIp k st d _ hv] at h
            exact ih l1t cq l2 _ st2 h hlen2 hcand hid
          | setOperand3 v =>
            rw [scanFuel_step_set gfxIp k st d v _ hv] at h
            exact ih l1t cq l2 _ st2 h hlen2 hcand hid
          | replaceCall nc =>
            rw [scanFuel_step_replace gfxIp k st d nc _ hv] at h
            have hrw : List.map (substInstr d.id nc.id) (l1t ++ Instr.call cq :: l2) =
                List.map (substInstr d.id nc.id) l1t ++
                  Instr.call (substCallArgs d.id nc.id cq) ::
                    List.map (substInstr d.id nc.id) l2 := by
              simp [substInstr]
            rw [hrw] at h
            have hres := ih (l1t.map (substInstr d.id nc.id))
              (substCallArgs d.id nc.id cq) (l2.map (substInstr d.id nc.id))
              _ st2 h
              (by simpa using hlen2)
              (by rw [isSizeQueryCandidate_substCallArgs]; exact hcand)
              (by show cq.id < st.fresh + 1; omega)
            exact hres

/-! ### Invariants of the stage loop and the drain -/

lemma scanFunction_inv (gfxIp : GfxIpVersion) (pending : List Nat) (fresh : Nat)
    (f f2 : Function) (p2 : List Nat) (fr2 : Nat)
    (h : scanFunction gfxIp pending fresh f = Except.ok (f2, p2, fr2)) :
    ∃ st2, scanFuel gfxIp f.instrs.length
        { done := [], pending := pending, fresh := fresh } f.instrs =
          Except.ok st2 ∧
      f2 = ⟨st2.done⟩ ∧ p2 = st2.pending ∧ fr2 = st2.fresh := by
  unfold scanFunction scanInstrs at h
  cases hscan : scanFuel gfxIp f.instrs.length
      { done := [], pending := pending, fresh := fresh } f.instrs with
  | error e =>
    rw [hscan] at h
    exact Except.noConfusion h
  | ok st2 =>
    rw [hscan] at h
    simp only [Except.ok.injEq, Prod.mk.injEq] at h
    exact ⟨st2, rfl, h.1.symm, h.2.1.symm, h.2.2.symm⟩

lemma scanFunction_fresh_mono (gfxIp : GfxIpVersion) (pending : List Nat)
    (fresh : Nat) (f f2 : Function) (p2 : List Nat) (fr2 : Nat)
    (h : scanFunction gfxIp pending fresh f = Except.ok (f2, p2, fr2)) :
    fresh ≤ fr2 := by
  obtain ⟨st2, hscan, -, -, hfr⟩ := scanFunction_inv gfxIp pending fresh f f2 p2 fr2 h
  rw [hfr]
  exact scanFuel_fresh_mono gfxIp _ _ _ _ hscan

lemma scanFunction_pending_mono (gfxIp : GfxIpVersion) (pending : List Nat)
    (fresh : Nat) (f f2 : Function) (p2 : List Nat) (fr2 : Nat) (x : Nat)
    (h : scanFunction gfxIp pending fresh f = Except.ok (f2, p2, fr2))
    (hx : x ∈ pending) : x ∈ p2 := by
  obtain ⟨st2, hscan, -, hp, -⟩ := scanFunction_inv gfxIp pending fresh f f2 p2 fr2 h
  rw [hp]
  exact scanFuel_pending_mono gfxIp x _ _ _ st2 hscan hx

lemma scanFunction_free (gfxIp : GfxIpVersion) (pending : List Nat)
    (fresh : Nat) (f f2 : Function) (p2 : List Nat) (fr2 : Nat) (n : Nat)
    (h : scanFunction gfxIp pending fresh f = Except.ok (f2, p2, fr2))
    (hfree : funcUses n f = false) (hlt : n < fresh) :
    funcUses n f2 = false := by
  obtain ⟨st2, hscan, hf2, -, -⟩ := scanFunction_inv gfxIp pending fresh f f2 p2 fr2 h
  rw [hf2]
  unfold funcUses at hfree ⊢
  rw [List.any_eq_false] at hfree ⊢
  intro i hi
  have := scanFuel_free gfxIp n _ _ _ st2 hscan (by intro x hx; cases hx)
    (by intro x hx; simpa using hfree x hx) hlt i hi
  simp [this]

lemma scanFuncs_fresh_mono (gfxIp : GfxIpVersion) :
    ∀ (gs : List Function) pending fresh gs2 p2 fr2,
      scanFuncs gfxIp pending fresh gs = Except.ok (gs2, p2, fr2) →
      fresh ≤ fr2 := by
  intro gs
  induction gs with
  | nil =>
    intro pending fresh gs2 p2 fr2 h
    simp only [scanFuncs, Except.ok.injEq, Prod.mk.injEq] at h
    omega
  | cons g gs ih =>
    intro pending fresh gs2 p2 fr2 h
    simp only [scanFuncs] at h
    cases hf : scanFunction gfxIp pending fresh g with
    | error e =>
      rw [hf] at h
      exact Except.noConfusion h
    | ok trip =>
      obtain ⟨g2, p1, fr1⟩ := trip
      rw [hf] at h
      dsimp only at h
      cases hrest : scanFuncs gfxIp p1 fr1 gs with
      | error e =>
        rw [hrest] at h
        exact Except.noConfusion h
      | ok trip2 =>
        obtain ⟨gs3, p3, fr3⟩ := trip2
        rw [hrest] at h
        simp only [Except.ok.injEq, Prod.mk.injEq] at h
        have h1 := scanFunction_fresh_mono gfxIp pending fresh g g2 p1 fr1 hf
        have h2 := ih p1 fr1 gs3 p3 fr3 hrest
        omega

lemma scanFuncs_pending_mono (gfxIp : GfxIpVersion) (x : Nat) :
    ∀ (gs : List Function) pending fresh gs2 p2 fr2,
      scanFuncs gfxIp pending fresh gs = Except.ok (gs2, p2, fr2) →
      x ∈ pending → x ∈ p2 := by
  intro gs
  induction gs with
  | nil =>
    intro pending fresh gs2 p2 fr2 h hx
    simp only [scanFuncs, Except.ok.injEq, Prod.mk.injEq] at h
    rw [← h.2.1]
    exact hx
  | cons g gs ih =>
    intro pending fresh gs2 p2 fr2 h hx
    simp only [scanFuncs] at h
    cases hf : scanFunction gfxIp pending fresh g with
    | error e =>
      rw [hf] at h
      exact Except.noConfusion h
    | ok trip =>
      obtain ⟨g2, p1, fr1⟩ := trip
      rw [hf] at h
      dsimp only at h
      cases hrest : scanFuncs gfxIp p1 fr1 gs with
      | error e =>
        rw [hrest] at h
        exact Except.noConfusion h
      | ok trip2 =>
        obtain ⟨gs3, p3, fr3⟩ := trip2
        rw [hrest] at h
        simp only [Except.ok.injEq, Prod.mk.injEq] at h
        rw [← h.2.1]
        exact ih p1 fr1 gs3 p3 fr3 hrest
          (scanFunction_pending_mono gfxIp pending fresh g g2 p1 fr1 x hf hx)

lemma scanFuncs_free (gfxIp : GfxIpVersion) (n : Nat) :
    ∀ (gs : List Function) pending fresh gs2 p2 fr2,
      scanFuncs gfxIp pending fresh gs = Except.ok (gs2, p2, fr2) →
      (∀ g ∈ gs, funcUses n g = false) →
      n < fresh →
      ∀ g ∈ gs2, funcUses n g = false := by
  intro gs
  induction gs with
  | nil =>
    intro pending fresh gs2 p2 fr2 h hfree hlt
    simp only [scanFuncs, Except.ok.injEq, Prod.mk.injEq] at h
    rw [← h.1]
    intro g hg
    cases hg
  | cons g gs ih =>
    intro pending fresh gs2 p2 fr2 h hfree hlt
    simp only [scanFuncs] at h
    cases hf : scanFunction gfxIp pending fresh g with
    | error e =>
      rw [hf] at h
      exact Except.noConfusion h
    | ok trip =>
      obtain ⟨g2, p1, fr1⟩ := trip
      rw [hf] at h
      dsimp only at h
      cases hrest : scanFuncs gfxIp p1 fr1 gs with
      | error e =>
        rw [hrest] at h
        exact Except.noConfusion h
      | ok trip2 =>
        obtain ⟨gs3, p3, fr3⟩ := trip2
        rw [hrest] at h
        simp only [Except.ok.injEq, Prod.mk.injEq] at h
        rw [← h.1]
        intro g3 hg3
        rcases List.mem_cons.mp hg3 with rfl | hg3b
        · exact scanFunction_free gfxIp pending fresh g g3 p1 fr1 n hf
            (hfree g (List.mem_cons_self _ _)) hlt
        · have hfr1 := scanFunction_fresh_mono gfxIp pending fresh g g2 p1 fr1 hf
          exact ih p1 fr1 gs3 p3 fr3 hrest
            (fun g4 hg4 => hfree g4 (List.mem_cons_of_mem _ hg4)) (by omega)
            g3 hg3b

lemma scanFuncs_append_inv (gfxIp : GfxIpVersion) :
    ∀ (xs ys : List Function) pending fresh zs p2 fr2,
      scanFuncs gfxIp pending fresh (xs ++ ys) = Except.ok (zs, p2, fr2) →
      ∃ xs2 p1 fr1 ys2,
        scanFuncs gfxIp pending fresh xs = Except.ok (xs2, p1, fr1) ∧
        scanFuncs gfxIp p1 fr1 ys = Except.ok (ys2, p2, fr2) ∧
        zs = xs2 ++ ys2 := by
  intro xs
  induction xs with
  | nil =>
    intro ys pending fresh zs p2 fr2 h
    exact ⟨[], pending, fresh, zs, rfl, h, by simp⟩
  | cons g xs ih =>
    intro ys pending fresh zs p2 fr2 h
    rw [List.cons_append] at h
    simp only [scanFuncs] at h
    cases hf : scanFunction gfxIp pending fresh g with
    | error e =>
      rw [hf] at h
      exact Except.noConfusion h
    | ok trip =>
      obtain ⟨g2, pa, fra⟩ := trip
      rw [hf] at h
      dsimp only at h
      cases hrest : scanFuncs gfxIp pa fra (xs ++ ys) with
      | error e =>
        rw [hrest] at h
        exact Except.noConfusion h
      | ok trip2 =>
        obtain ⟨ws, pb, frb⟩ := trip2
        rw [hrest] at h
        simp only [Except.ok.injEq, Prod.mk.injEq] at h
        obtain ⟨hzs, hp, hfr⟩ := h
        obtain ⟨xs2, p1, fr1, ys2, hxs, hys, hws⟩ := ih ys pa fra ws pb frb hrest
        refine ⟨g2 :: xs2, p1, fr1, ys2, ?_, ?_, ?_⟩
        · simp only [scanFuncs]
          rw [hf]
          dsimp only
          rw [hxs]
        · rw [← hp, ← hfr]
          exact hys
        · rw [← hzs, hws]
          simp

lemma drain_mem {pending : List Nat} {l : List Instr} {i : Instr}
    (h : i ∈ drainErasures pending l) : i ∈ l ∧ i.instrId ∉ pending := by
  unfold drainErasures at h
  have h1 := List.mem_filter.mp h
  exact ⟨h1.1, by simpa using h1.2⟩

/-- Claim C2: every call matching the buffer-size-query rule on hardware
with major version at most 8 is replaced by a call receiving all original
operands unmodified and in order; the scan step substitutes the original
call identity by the replacement identity throughout the function (every
use of the original result is redirected to the replacement) and schedules
the original for erasure; and after the pass completes — the drain runs
after the scan over all stages — no instruction of the output module uses
or carries the original call identity.  The hypotheses `hfresh` and
`hlocal` state the well-formedness the pass assumes: identities of emitted
calls are fresh, and uses of a call result are local to its function. -/
theorem claim_C2 (gfxIp : GfxIpVersion) (fresh0 : Nat) (m m2 : Module)
    (pre post : List Function) (f : Function) (c : CallInst)
    (hm : m.funcs = pre ++ f :: post)
    (hc : Instr.call c ∈ f.instrs)
    (hcand : isSizeQueryCandidate c = true)
    (hmaj : gfxIp.major ≤ 8)
    (hfresh : c.id < fresh0)
    (hlocal : ∀ g, g ∈ pre ∨ g ∈ post → funcUses c.id g = false)
    (hrun : runOnModule gfxIp fresh0 m = Except.ok m2) :
    (∀ fr, visitCallInst gfxIp fr c = Except.ok (VisitAction.replaceCall
      { id := fr, callee := some (calleeStr c ++ gfxSuffix gfxIp),
        retTy := c.retTy, args := c.args })) ∧
    (∀ fuel (st : ScanState) rest nc,
      visitCallInst gfxIp st.fresh c = Except.ok (VisitAction.replaceCall nc) →
      scanFuel gfxIp (fuel + 1) st (Instr.call c :: rest) =
        scanFuel gfxIp fuel
          { done := (st.done ++ [Instr.call nc, Instr.call c]).map
              (substInstr c.id nc.id)
            pending := insertPending st.pending c.id
            fresh := st.fresh + 1 }
          (rest.map (substInstr c.id nc.id))) ∧
    (∀ g, g ∈ m2.funcs → ∀ i, i ∈ g.instrs →
      instrUses c.id i = false ∧ Instr.instrId i ≠ c.id) := by
  refine ⟨fun fr => visit_candidate_replace gfxIp c hcand hmaj fr,
    fun fuel st rest nc hv => scanFuel_step_replace gfxIp fuel st c nc rest hv, ?_⟩
  unfold runOnModule at hrun
  cases hsf : scanFuncs gfxIp [] fresh0 m.funcs with
  | error e =>
    rw [hsf] at hrun
    exact Except.noConfusion hrun
  | ok trip =>
    obtain ⟨fs, pendingF, frF⟩ := trip
    rw [hsf] at hrun
    dsimp only at hrun
    have hm2 : m2 = ⟨fs.map (fun g => ⟨drainErasures pendingF g.instrs⟩)⟩ :=
      (Except.ok.inj hrun).symm
    rw [hm] at hsf
    obtain ⟨pre2, p1, fr1, rest2, hpre, hrest, hfs⟩ :=
      scanFuncs_append_inv gfxIp pre (f :: post) [] fresh0 fs pendingF frF hsf
    simp only [scanFuncs] at hrest
    cases hfn : scanFunction gfxIp p1 fr1 f with
    | error e =>
      rw [hfn] at hrest
      exact Except.noConfusion hrest
    | ok trip2 =>
      obtain ⟨f2, p2, fr2⟩ := trip2
      rw [hfn] at hrest
      dsimp only at hrest
      cases hpost : scanFuncs gfxIp p2 fr2 post with
      | error e =>
        rw [hpost] at hrest
        exact Except.noConfusion hrest
      | ok trip3 =>
        obtain ⟨post2, p3, fr3⟩ := trip3
        rw [hpost] at hrest
        simp only [Except.ok.injEq, Prod.mk.injEq] at hrest
        obtain ⟨hrest2, hp3, hfr3⟩ := hrest
        have hfr1 : fresh0 ≤ fr1 :=
          scanFuncs_fresh_mono gfxIp pre [] fresh0 pre2 p1 fr1 hpre
        obtain ⟨l1, l2, hsplit⟩ := List.append_of_mem hc
        obtain ⟨stf, hscanf, hf2, hp2, hfr2⟩ :=
          scanFunction_inv gfxIp p1 fr1 f f2 p2 fr2 hfn
        rw [hsplit] at hscanf
        obtain ⟨hpend, hfree_f⟩ :=
          scanFuel_reaches_sizeQuery gfxIp hmaj
            ((l1 ++ Instr.call c :: l2).length) l1 c l2 _ stf hscanf
            (Nat.le_refl _) hcand (by show c.id < fr1; omega)
        have hpendF : c.id ∈ pendingF := by
          rw [← hp3]
          refine scanFuncs_pending_mono gfxIp c.id post p2 fr2 post2 p3 fr3 hpost ?_
          rw [hp2]
          exact hpend
        have hf2free : funcUses c.id f2 = false := by
          rw [hf2]
          unfold funcUses
          rw [List.any_eq_false]
          intro i hi
          simp [hfree_f i hi]
        have hpre2free : ∀ g ∈ pre2, funcUses c.id g = false :=
          scanFuncs_free gfxIp c.id pre [] fresh0 pre2 p1 fr1 hpre
            (fun g hg => hlocal g (Or.inl hg)) hfresh
        have hfr2b : fresh0 ≤ fr2 :=
          le_trans hfr1 (scanFunction_fresh_mono gfxIp p1 fr1 f f2 p2 fr2 hfn)
        have hpost2free : ∀ g ∈ post2, funcUses c.id g = false :=
          scanFuncs_free gfxIp c.id post p2 fr2 post2 p3 fr3 hpost
            (fun g hg => hlocal g (Or.inr hg)) (by omega)
        intro g hg i hi
        rw [hm2] at hg
        simp only [List.mem_map] at hg
        obtain ⟨g0, hg0, rfl⟩ := hg
        obtain ⟨hi0, hnot⟩ := drain_mem hi
        have hg0free : funcUses c.id g0 = false := by
          rw [hfs] at hg0
          rcases List.mem_append.mp hg0 with hga | hgb
          · exact hpre2free g0 hga
          · rw [← hrest2] at hgb
            rcases List.mem_cons.mp hgb with rfl | hgc
            · exact hf2free
            · exact hpost2free g0 hgc
        constructor
        · unfold funcUses at hg0free
          rw [List.any_eq_false] at hg0free
          simpa using hg0free i hi0
        · intro heq
          rw [heq] at hnot
          exact hnot hpendF

/-- Claim C2 witness: on the concrete one-call GFX6 module, the query
call is replaced, its identity is erased from the output, and no
instruction of the output uses it. -/
theorem claim_C2_witness :
    instrUses querySizeCall.id (Instr.call querySizeGfx6Call) = false ∧
    Instr.instrId (Instr.call querySizeGfx6Call) ≠ querySizeCall.id :=
  (claim_C2 gfx6ip 1 moduleBefore moduleOnce [] [] ⟨[Instr.call querySizeCall]⟩
    querySizeCall rfl (by decide) (by decide) (by decide) (by decide)
    (by rintro g (hg | hg) <;> cases hg) (by decide)).2.2
    ⟨[Instr.call querySizeGfx6Call]⟩ (by decide)
    (Instr.call querySizeGfx6Call) (by decide)

end Llpc
